import Mathlib

/-!
# Verification of the workday segmentation and reconciliation engine

Shallow embedding of the core pipeline in `src/pipeline/processing/processing.py`
(class `WorkdayProcessor`): event normalization (`prepare_initial_data`,
`preprocess_data`), workday segmentation (`create_working_day`), gap
reconciliation (`merge_log_lost_and_same_apps`), the rejection date filter
(`delete_working_days`), feature annotation (`add_workday_features`) and the
prune/merge stage (`process_workdays`).

Timestamps are modelled as integer millisecond instants (the source parses the
raw `start`/`end` columns with `pd.to_datetime(..., unit='ms')` and all derived
quantities are obtained through `total_seconds()` division). Durations in
minutes and gaps in hours are exact rationals: `total_seconds()/60` on an
integral number of milliseconds is `ms / 60000` and `total_seconds()/3600` is
`ms / 3600000`.
-/

namespace Insightful

/-- Minutes spanned by `ms` milliseconds: `timedelta.total_seconds() / 60`. -/
def minutesQ (ms : Int) : ℚ := (ms : ℚ) / 60000

/-- Hours spanned by `ms` milliseconds: `timedelta.total_seconds() / 3600`. -/
def hoursQ (ms : Int) : ℚ := (ms : ℚ) / 3600000

/-- A normalized activity event, one row of the dataframe handed to
`create_working_day` (columns kept by `prepare_initial_data`). -/
structure Event where
  employeeId : String
  app : String
  start_time : Int
  end_time : Int
  mouseClicks : Int
  keystrokes : Int
  mic : Bool
  mouseScroll : Int
  camera : Bool
deriving DecidableEq

/-- One entry of the parallel per-segment lists (`app`, `app_durations`,
`app_start_times`, `app_end_times`, `mouseClicks`, `keystrokes`, `mic`,
`mouseScroll`, `camera`) of a workday row. -/
structure Segment where
  app : String
  duration : ℚ
  start_time : Int
  end_time : Int
  mouseClicks : Int
  keystrokes : Int
  mic : Bool
  mouseScroll : Int
  camera : Bool
deriving DecidableEq

/-- A workday row as produced by `create_working_day`: the parallel segment
lists plus the row-level `employeeId`, `start_time` and `end_time`. -/
structure Workday where
  employeeId : String
  segments : List Segment
  start_time : Int
  end_time : Int
deriving DecidableEq

/-- A workday row after `add_workday_features`: the two derived feature
columns `hours_until_next_workday` and `workday_duration` are present. -/
structure FeatRow where
  employeeId : String
  segments : List Segment
  start_time : Int
  end_time : Int
  hoursUntilNext : ℚ
  workdayDuration : ℚ
deriving DecidableEq

/-- The segment recorded for a real event row (`create_working_day` appends
the row's fields; the duration is `(end_time - start_time).total_seconds()/60`). -/
def eventSegment (r : Event) : Segment :=
  { app := r.app
    duration := minutesQ (r.end_time - r.start_time)
    start_time := r.start_time
    end_time := r.end_time
    mouseClicks := r.mouseClicks
    keystrokes := r.keystrokes
    mic := r.mic
    mouseScroll := r.mouseScroll
    camera := r.camera }

/-- A synthetic gap-filler segment (`Pause` or `Log Lost/Software Bug`):
zero counters, `False` booleans, spanning `s .. e`. -/
def fillerSegment (name : String) (s e : Int) : Segment :=
  { app := name
    duration := minutesQ (e - s)
    start_time := s
    end_time := e
    mouseClicks := 0
    keystrokes := 0
    mic := false
    mouseScroll := 0
    camera := false }

/-- Decimal digit character for `n < 10`. -/
def natDigitChar (n : Nat) : Char := Char.ofNat (48 + n)

/-- Decimal digits of a natural number, most significant first
(fueled helper; the fuel `n + 1` always suffices). -/
def natReprAux : Nat → Nat → List Char → List Char
  | 0, _, acc => acc
  | fuel + 1, n, acc =>
    if n < 10 then natDigitChar n :: acc
    else natReprAux fuel (n / 10) (natDigitChar (n % 10) :: acc)

/-- Decimal representation of a natural number, as Python's `str` formats a
nonnegative `int` inside an f-string. -/
def natRepr (n : Nat) : List Char := natReprAux (n + 1) n []

/-- The session identifier built by `create_working_day`: the employee id,
an underscore, and the decimal day counter (the Python f-string). -/
def mkSessionId (eid : String) (k : Nat) : String :=
  eid ++ "_" ++ String.mk (natRepr k)

/-- State of the per-employee segmentation loop of `create_working_day`:
completed workdays, the current day's segments, the day counter, the previous
event's end (`last_end`, `none` before the first event) and the current day's
start (`start_time_of_workday`). -/
structure SegState where
  result : List Workday
  daily : List Segment
  dayCounter : Nat
  lastEnd : Option Int
  sessionStart : Int
deriving DecidableEq

/-- One iteration of the event loop in `create_working_day` for employee
`eid` with threshold `maxGap` (milliseconds; the source default is 2 hours,
`main_process.py` passes 1 hour):
* first event: initialize the day and append the event segment;
* `gap >= max_workday_gap`: flush the current workday and start a new one;
* `0 < gap <= 20` seconds: append a `Log Lost/Software Bug` filler, then the
  event;
* `20` seconds `< gap < max_workday_gap`: append a `Pause` filler, then the
  event;
* otherwise (`gap <= 0`): append the event directly. -/
def segStep (eid : String) (maxGap : Int) (st : SegState) (r : Event) : SegState :=
  match st.lastEnd with
  | none =>
      { st with
        daily := [eventSegment r]
        lastEnd := some r.end_time
        sessionStart := r.start_time }
  | some le =>
      let gap := r.start_time - le
      if maxGap ≤ gap then
        { result := st.result ++
            [{ employeeId := mkSessionId eid st.dayCounter
               segments := st.daily
               start_time := st.sessionStart
               end_time := le }]
          daily := [eventSegment r]
          dayCounter := st.dayCounter + 1
          lastEnd := some r.end_time
          sessionStart := r.start_time }
      else
        let fill : List Segment :=
          if 0 < gap ∧ gap ≤ 20000 then
            [fillerSegment "Log Lost/Software Bug" le r.start_time]
          else if 20000 < gap ∧ gap < maxGap then
            [fillerSegment "Pause" le r.start_time]
          else []
        { st with
          daily := st.daily ++ fill ++ [eventSegment r]
          lastEnd := some r.end_time }

/-- Restriction of `create_working_day` to one employee's chronologically sorted
event list: run the loop, then flush the final non-empty day. -/
def createWorkingDayEmp (eid : String) (maxGap : Int) (events : List Event) :
    List Workday :=
  let st := events.foldl (segStep eid maxGap) ⟨[], [], 1, none, 0⟩
  match st.lastEnd with
  | none => st.result
  | some le =>
      if st.daily = [] then st.result
      else st.result ++
        [{ employeeId := mkSessionId eid st.dayCounter
           segments := st.daily
           start_time := st.sessionStart
           end_time := le }]

/-- Fold `cur` into the retained segment `prev`: extend the end time, add the
duration and the counters, OR the booleans (the `new_*[-1]` updates of
`merge_log_lost_and_same_apps`). -/
def foldInto (prev cur : Segment) : Segment :=
  { prev with
    duration := prev.duration + cur.duration
    end_time := cur.end_time
    mouseClicks := prev.mouseClicks + cur.mouseClicks
    keystrokes := prev.keystrokes + cur.keystrokes
    mic := prev.mic || cur.mic
    mouseScroll := prev.mouseScroll + cur.mouseScroll
    camera := prev.camera || cur.camera }

/-- One iteration of the scan in `merge_log_lost_and_same_apps`, with the
retained list kept in reverse (head = most recently retained segment, the
source's `new_*[-1]`):
* a `Log Lost/Software Bug` segment folds into the previous retained segment,
  and is skipped when there is none;
* a segment with the same app as the previous retained one, starting exactly
  where it ends, folds into it;
* otherwise the segment is retained as new. -/
def reconcileStepRev (acc : List Segment) (cur : Segment) : List Segment :=
  if cur.app = "Log Lost/Software Bug" then
    match acc with
    | [] => []
    | prev :: rest => foldInto prev cur :: rest
  else
    match acc with
    | [] => [cur]
    | prev :: rest =>
        if cur.app = prev.app ∧ prev.end_time = cur.start_time then
          foldInto prev cur :: rest
        else cur :: prev :: rest

/-- The per-session segment scan of `merge_log_lost_and_same_apps`. -/
def reconcileSegs (segs : List Segment) : List Segment :=
  (segs.foldl reconcileStepRev []).reverse

/-- Effect of `merge_log_lost_and_same_apps` on one workday row: rebuild the row with
the reconciled segment lists; `employeeId`, `start_time`, `end_time` are
copied unchanged. -/
def rowReconcile (w : Workday) : Workday :=
  { w with segments := reconcileSegs w.segments }

/-- Application of `merge_log_lost_and_same_apps` over the whole collection of rows. -/
def mergeLogLostAndSameApps (rows : List Workday) : List Workday :=
  rows.map rowReconcile

/-- The adjacency condition that `merge_log_lost_and_same_apps` can never
leave behind: the second segment repeats the first segment's app and starts
exactly where the first ends. -/
def mergeablePair (a b : Segment) : Prop :=
  b.app = a.app ∧ a.end_time = b.start_time

instance (a b : Segment) : Decidable (mergeablePair a b) := by
  unfold mergeablePair; infer_instance

/-! ## Event normalization (`prepare_initial_data`, `preprocess_data`)

The mapping tables (`mappings_apps`, `mappings_sites`, with the exclusion
lists already resolved to self-mappings) are external inputs; they are
modelled as partial functions `String → Option String`, `combine_first`
keeping the original name on a missing entry. -/

/-- The `app` rewriting of `prepare_initial_data`: inactive rows become
`Concentration Lost` first; then an app among the known browsers with an
unset `site` becomes `Private Links`. -/
def prepareApp (browsers : List String) (active : Bool) (app : String)
    (site : Option String) : String :=
  let app1 := if active = false then "Concentration Lost" else app
  if app1 ∈ browsers ∧ site = none then "Private Links" else app1

/-- The mapping steps of `preprocess_data`: the site mapping (merged on
`site`, `combine_first` with the current app) followed by the app mapping
(merged on the resulting `app` column). -/
def applyMappings (siteMap appMap : String → Option String) (app : String)
    (site : Option String) : String :=
  let a1 := match site with
    | none => app
    | some s => (siteMap s).getD app
  (appMap a1).getD a1

/-- Whitespace class of the `\s` regex atom over the ASCII characters the
data carries. -/
def isWsChar (c : Char) : Bool :=
  c = ' ' ∨ c = '\t' ∨ c = '\n' ∨ c = '\x0d' ∨ c = '\x0b' ∨ c = '\x0c'

/-- Helper for the `str.replace` with pattern whitespace-run, replacement
`'_'`: the flag records whether the previous character was part of a
whitespace run already replaced. -/
def squashWsAux : Bool → List Char → List Char
  | _, [] => []
  | inRun, c :: rest =>
    if isWsChar c then
      (if inRun then [] else ['_']) ++ squashWsAux true rest
    else c :: squashWsAux false rest

/-- Effect of the `str.replace` of `preprocess_data` on one string: every
maximal run of whitespace becomes a single underscore. -/
def wsToUnderscore (s : String) : String := String.mk (squashWsAux false s.data)

/-- The full `app` column transformation an event undergoes between the raw
input and `create_working_day`: `prepare_initial_data`'s rewrites, the two
mapping joins, then the whitespace-to-underscore replacement. -/
def normalizeApp (browsers : List String) (siteMap appMap : String → Option String)
    (active : Bool) (app : String) (site : Option String) : String :=
  wsToUnderscore (applyMappings siteMap appMap (prepareApp browsers active app site) site)

/-! ## Rejection date filter (`delete_working_days`) -/

/-- Value of `pd.to_datetime('2024-09-05')` as epoch milliseconds
(2024-09-05T00:00:00Z). -/
def startDateMs : Int := 1725494400000

/-- Value of `pd.to_datetime('2024-09-13')` as epoch milliseconds
(2024-09-13T00:00:00Z). -/
def endDateMs : Int := 1726185600000

/-- Embedding of `delete_working_days`: keep the rows whose `start_time` is NOT inside the
closed timestamp interval `[start_date, end_date]`. -/
def deleteWorkingDays (rows : List Workday) : List Workday :=
  rows.filter fun w => ¬(startDateMs ≤ w.start_time ∧ w.start_time ≤ endDateMs)

/-- The calendar day (days since the epoch) an epoch-millisecond instant
falls on; used only to state the spec's day-granular rejection interval. -/
def calendarDayOfMs (t : Int) : Int := t / 86400000

/-! ## Base employee id extraction (regex `(.*)_` followed by digits,
anchored; greedy, with `fillna` keeping the original id on no match) -/

/-- The `str.extract` + `fillna` of `add_workday_features` and
`process_workdays`: strip the maximal run of trailing decimal digits; if it
is non-empty and preceded by an underscore, drop the digits and that
underscore, else return the identifier unchanged. This is exactly the greedy
anchored pattern: the suffix matched is the shortest `_digits` suffix. -/
def extractBase (s : String) : String :=
  let r := s.data.reverse
  match r.takeWhile Char.isDigit, r.dropWhile Char.isDigit with
  | [], _ => s
  | _ :: _, c :: rest => if c = '_' then String.mk rest.reverse else s
  | _ :: _, [] => s

/-! ## Feature annotation (`add_workday_features`) -/

/-- Stable insertion of a workday into a list sorted by `start_time`. -/
def insertByStart (w : Workday) : List Workday → List Workday
  | [] => [w]
  | x :: xs =>
      if x.start_time ≤ w.start_time then x :: insertByStart w xs
      else w :: x :: xs

/-- Stable sort of workday rows by `start_time` (the per-group effect of
`sort_values(by=['base_employeeId', 'start_time'])`). -/
def sortByStart (rows : List Workday) : List Workday :=
  rows.foldr insertByStart []

/-- One employee's rows of `add_workday_features`, sorted by `start_time`:
the group a `groupby('base_employeeId')` on the sorted frame produces for
key `k`. -/
def sortedGroup (rows : List Workday) (k : String) : List Workday :=
  sortByStart (rows.filter fun w => extractBase w.employeeId = k)

/-- The per-group body of `add_workday_features` on a `start_time`-sorted
group: `hours_until_next_workday` from the `shift(-1)` of `start_time`
(`-1` on the last row) and `workday_duration` from the row's own bounds. -/
def annotateGroup : List Workday → List FeatRow
  | [] => []
  | [w] =>
      [{ employeeId := w.employeeId
         segments := w.segments
         start_time := w.start_time
         end_time := w.end_time
         hoursUntilNext := -1
         workdayDuration := minutesQ (w.end_time - w.start_time) }]
  | w :: w2 :: rest =>
      { employeeId := w.employeeId
        segments := w.segments
        start_time := w.start_time
        end_time := w.end_time
        hoursUntilNext := hoursQ (w2.start_time - w.end_time)
        workdayDuration := minutesQ (w.end_time - w.start_time) } ::
      annotateGroup (w2 :: rest)

/-! ## Prune and merge (`process_workdays`), per employee

`process_workdays` sorts by `(base_employeeId, start_time)`, prunes globally,
recomputes `hours_until_next_workday` per employee, then runs the merge scan
independently on each employee's chronologically sorted session list and
recomputes the hours feature again. The per-employee slice of the stage is
embedded below; its input is the employee's `start_time`-sorted rows. -/

/-- The prune: `df = df[df['workday_duration'] >= 45]`. -/
def pruneShort (rows : List FeatRow) : List FeatRow :=
  rows.filter fun r => 45 ≤ r.workdayDuration

/-- Embedding of `recalculate_hours_until_next_workday` on one employee's sorted rows:
`(next_start_time - end_time).total_seconds()/3600`, `-1` on the last row. -/
def recomputeHours : List FeatRow → List FeatRow
  | [] => []
  | [r] => [{ r with hoursUntilNext := -1 }]
  | r :: r2 :: rest =>
      { r with hoursUntilNext := hoursQ (r2.start_time - r.end_time) } ::
      recomputeHours (r2 :: rest)

/-- Merging `next` into `cur` (the body of the `0 <= actual_gap_hours < 3`
branch): a `Pause` filler spanning the gap, then `next`'s segment lists;
`end_time` becomes `next`'s; the duration is the sum of both stored
durations plus `actual_gap_hours * 60`; the merged row inherits `next`'s
`hours_until_next_workday`. -/
def mergePair (cur next : FeatRow) : FeatRow :=
  { cur with
    segments := cur.segments ++
      fillerSegment "Pause" cur.end_time next.start_time :: next.segments
    end_time := next.end_time
    workdayDuration := cur.workdayDuration + next.workdayDuration +
      hoursQ (next.start_time - cur.end_time) * 60
    hoursUntilNext := next.hoursUntilNext }

/-- The merge scan with the current row held out: when the actual gap to the
next row is in `[0, 3)` hours the rows merge and the scan stays at the merged
row (the source does not advance `idx`); otherwise the current row is
emitted and the scan advances. -/
def mergeRun (cur : FeatRow) : List FeatRow → List FeatRow
  | [] => [cur]
  | next :: rest =>
      if 0 ≤ hoursQ (next.start_time - cur.end_time) ∧
          hoursQ (next.start_time - cur.end_time) < 3 then
        mergeRun (mergePair cur next) rest
      else cur :: mergeRun next rest

/-- The while-loop of `process_workdays` over one employee's sorted rows. -/
def mergeLoop : List FeatRow → List FeatRow
  | [] => []
  | r :: rest => mergeRun r rest

/-- The per-employee slice of `process_workdays`: prune, recompute the hours
feature, run the merge loop, recompute the hours feature again. -/
def processEmp (rows : List FeatRow) : List FeatRow :=
  recomputeHours (mergeLoop (recomputeHours (pruneShort rows)))

/-! ## Concrete instances for the closed witness and counterexample
statements -/

/-- A ten-minute event ending at instant 600000. -/
def exEvA : Event :=
  { employeeId := "emp", app := "A", start_time := 0, end_time := 600000
    mouseClicks := 3, keystrokes := 5, mic := false, mouseScroll := 1
    camera := false }

/-- An event starting exactly 20 seconds after `exEvA` ends (the log-lost
boundary). -/
def exEvB : Event :=
  { employeeId := "emp", app := "B", start_time := 620000, end_time := 1200000
    mouseClicks := 2, keystrokes := 0, mic := true, mouseScroll := 0
    camera := false }

/-- Segmenter state holding one open segment, previous event end 600000. -/
def exSegState : SegState :=
  { result := [], daily := [eventSegment exEvA], dayCounter := 1
    lastEnd := some 600000, sessionStart := 0 }

/-- A one-minute real segment. -/
def exSegA : Segment :=
  { app := "A", duration := 1, start_time := 0, end_time := 60000
    mouseClicks := 2, keystrokes := 3, mic := false, mouseScroll := 1
    camera := false }

/-- A `Log Lost/Software Bug` filler with no preceding segment. -/
def exDegSeg : Segment := fillerSegment "Log Lost/Software Bug" 0 60000

/-- A session whose first segment is a `Log Lost/Software Bug` filler: the
degenerate reconciler input. -/
def exDegRow : Workday :=
  { employeeId := "e_1", segments := [exDegSeg], start_time := 0
    end_time := 60000 }

/-- A session with a log-lost gap between two same-app segments. -/
def exLLRow : Workday :=
  { employeeId := "e_1"
    segments := [exSegA, fillerSegment "Log Lost/Software Bug" 60000 65000,
      { app := "A", duration := 55 / 60, start_time := 65000, end_time := 120000
        mouseClicks := 1, keystrokes := 1, mic := false, mouseScroll := 0
        camera := false }]
    start_time := 0, end_time := 120000 }

/-- A 30-minute session (below the 45-minute prune threshold). -/
def exRowShort : FeatRow :=
  { employeeId := "e_1", segments := [], start_time := 0, end_time := 1800000
    hoursUntilNext := -1, workdayDuration := 30 }

/-- A 60-minute session starting three hours in. -/
def exRowLong : FeatRow :=
  { employeeId := "e_2", segments := [], start_time := 10800000
    end_time := 14400000, hoursUntilNext := -1, workdayDuration := 60 }

/-- A two-hour session starting at instant 0. -/
def exRowStartA : FeatRow :=
  { employeeId := "e_1"
    segments := [{ app := "A", duration := 120, start_time := 0
                   end_time := 7200000, mouseClicks := 0, keystrokes := 0
                   mic := false, mouseScroll := 0, camera := false }]
    start_time := 0, end_time := 7200000, hoursUntilNext := -1
    workdayDuration := 120 }

/-- A one-hour session with the same `start_time` as `exRowStartA`. -/
def exRowStartB : FeatRow :=
  { employeeId := "e_2"
    segments := [{ app := "B", duration := 60, start_time := 0
                   end_time := 3600000, mouseClicks := 0, keystrokes := 0
                   mic := false, mouseScroll := 0, camera := false }]
    start_time := 0, end_time := 3600000, hoursUntilNext := -1
    workdayDuration := 60 }

/-- A one-hour session starting one hour after `exRowStartA` ends. -/
def exRowGapB : FeatRow :=
  { employeeId := "e_2"
    segments := [{ app := "B", duration := 60, start_time := 10800000
                   end_time := 14400000, mouseClicks := 0, keystrokes := 0
                   mic := false, mouseScroll := 0, camera := false }]
    start_time := 10800000, end_time := 14400000, hoursUntilNext := -1
    workdayDuration := 60 }

/-- A one-hour workday for the annotator example. -/
def exW1 : Workday :=
  { employeeId := "e_1", segments := [], start_time := 0, end_time := 3600000 }

/-- A second workday of the same employee, two hours after `exW1` ends. -/
def exW2 : Workday :=
  { employeeId := "e_2", segments := [], start_time := 10800000
    end_time := 14400000 }

/-- The annotated first row of the example group: two hours to the next
session, sixty minutes long. -/
def exW1Out : FeatRow :=
  { employeeId := "e_1", segments := [], start_time := 0, end_time := 3600000
    hoursUntilNext := hoursQ 7200000, workdayDuration := minutesQ 3600000 }

/-- A session starting 2024-09-13T01:00:00Z, one hour past the filter's
`end_date` midnight instant but still on the interval's last calendar day. -/
def exWSep13 : Workday :=
  { employeeId := "e_1", segments := [], start_time := 1726189200000
    end_time := 1726189260000 }

/-! ## Reconciler invariants (towards C4 and C6) -/

/-- Folding keeps the retained segment's app name. -/
theorem foldInto_app (prev cur : Segment) : (foldInto prev cur).app = prev.app :=
  rfl

/-- Folding keeps the retained segment's start time. -/
theorem foldInto_start (prev cur : Segment) :
    (foldInto prev cur).start_time = prev.start_time := rfl

/-- One reconciler step preserves the reversed-accumulator invariant: no
`Log Lost/Software Bug` segment is retained, and no retained segment repeats
its predecessor's app while starting exactly at its predecessor's end. -/
theorem reconcileStepRev_inv (acc : List Segment) (cur : Segment)
    (h1 : ∀ s ∈ acc, s.app ≠ "Log Lost/Software Bug")
    (h2 : List.Chain' (fun b a => ¬ mergeablePair a b) acc) :
    (∀ s ∈ reconcileStepRev acc cur, s.app ≠ "Log Lost/Software Bug") ∧
    List.Chain' (fun b a => ¬ mergeablePair a b) (reconcileStepRev acc cur) := by
  cases acc with
  | nil =>
    by_cases hll : cur.app = "Log Lost/Software Bug"
    · simp only [reconcileStepRev, if_pos hll]
      simp
    · simp only [reconcileStepRev, if_neg hll]
      refine ⟨?_, by simp⟩
      intro s hs
      rcases List.mem_singleton.mp hs with rfl
      exact hll
  | cons prev rest =>
    by_cases hll : cur.app = "Log Lost/Software Bug"
    · simp only [reconcileStepRev, if_pos hll]
      refine ⟨?_, ?_⟩
      · intro s hs
        rcases List.mem_cons.mp hs with rfl | hs
        · rw [foldInto_app]
          exact h1 prev (List.mem_cons_self _ _)
        · exact h1 s (List.mem_cons_of_mem _ hs)
      · cases rest with
        | nil => simp
        | cons p2 r2 =>
          rw [List.chain'_cons] at h2 ⊢
          refine ⟨?_, h2.2⟩
          intro hmp
          exact h2.1 (by simpa [mergeablePair, foldInto_app, foldInto_start]
            using hmp)
    · by_cases hm : cur.app = prev.app ∧ prev.end_time = cur.start_time
      · simp only [reconcileStepRev, if_neg hll, if_pos hm]
        refine ⟨?_, ?_⟩
        · intro s hs
          rcases List.mem_cons.mp hs with rfl | hs
          · rw [foldInto_app]
            exact h1 prev (List.mem_cons_self _ _)
          · exact h1 s (List.mem_cons_of_mem _ hs)
        · cases rest with
          | nil => simp
          | cons p2 r2 =>
            rw [List.chain'_cons] at h2 ⊢
            refine ⟨?_, h2.2⟩
            intro hmp
            exact h2.1 (by simpa [mergeablePair, foldInto_app, foldInto_start]
              using hmp)
      · simp only [reconcileStepRev, if_neg hll, if_neg hm]
        refine ⟨?_, ?_⟩
        · intro s hs
          rcases List.mem_cons.mp hs with rfl | hs
          · exact hll
          · exact h1 s hs
        · rw [List.chain'_cons]
          exact ⟨fun hmp => hm ⟨hmp.1, hmp.2⟩, h2⟩

/-- The reconciler fold preserves the reversed-accumulator invariant. -/
theorem reconcile_foldl_inv (l : List Segment) :
    ∀ acc, (∀ s ∈ acc, s.app ≠ "Log Lost/Software Bug") →
      List.Chain' (fun b a => ¬ mergeablePair a b) acc →
      (∀ s ∈ l.foldl reconcileStepRev acc, s.app ≠ "Log Lost/Software Bug") ∧
      List.Chain' (fun b a => ¬ mergeablePair a b)
        (l.foldl reconcileStepRev acc) := by
  induction l with
  | nil => intro acc h1 h2; exact ⟨h1, h2⟩
  | cons cur rest ih =>
    intro acc h1 h2
    obtain ⟨h1', h2'⟩ := reconcileStepRev_inv acc cur h1 h2
    exact ih _ h1' h2'

/-- The reconciled segment list carries no `Log Lost/Software Bug` segment
and no adjacent pair that could still merge. -/
theorem reconcileSegs_inv (segs : List Segment) :
    (∀ s ∈ reconcileSegs segs, s.app ≠ "Log Lost/Software Bug") ∧
    List.Chain' (fun a b => ¬ mergeablePair a b) (reconcileSegs segs) := by
  obtain ⟨h1, h2⟩ := reconcile_foldl_inv segs [] (by simp) (by simp)
  refine ⟨?_, ?_⟩
  · intro s hs
    exact h1 s (List.mem_reverse.mp hs)
  · exact List.chain'_reverse.mpr h2

/-- On a list with no `Log Lost/Software Bug` segment and no mergeable
adjacent pair, the reconciler fold only pushes: it reverses the list onto
the accumulator. -/
theorem reconcile_foldl_fixed (l : List Segment) :
    ∀ (prev : Segment) (rest : List Segment),
      (∀ s ∈ l, s.app ≠ "Log Lost/Software Bug") →
      List.Chain' (fun a b => ¬ mergeablePair a b) (prev :: l) →
      l.foldl reconcileStepRev (prev :: rest) = l.reverse ++ prev :: rest := by
  induction l with
  | nil => intro prev rest _ _; simp
  | cons cur tail ih =>
    intro prev rest h1 h2
    rw [List.chain'_cons] at h2
    have hstep : reconcileStepRev (prev :: rest) cur = cur :: prev :: rest := by
      have hmp : ¬(cur.app = prev.app ∧ prev.end_time = cur.start_time) :=
        fun hc => h2.1 ⟨hc.1, hc.2⟩
      simp only [reconcileStepRev, if_neg (h1 cur (List.mem_cons_self _ _)),
        if_neg hmp]
    rw [List.foldl_cons, hstep,
      ih cur (prev :: rest) (fun s hs => h1 s (List.mem_cons_of_mem _ hs)) h2.2]
    simp

/-- A list satisfying the reconciled invariant is a fixed point of the
segment scan. -/
theorem reconcileSegs_fixed (l : List Segment)
    (h1 : ∀ s ∈ l, s.app ≠ "Log Lost/Software Bug")
    (h2 : List.Chain' (fun a b => ¬ mergeablePair a b) l) :
    reconcileSegs l = l := by
  cases l with
  | nil => rfl
  | cons cur tail =>
    unfold reconcileSegs
    rw [List.foldl_cons]
    have hstep : reconcileStepRev [] cur = [cur] := by
      simp only [reconcileStepRev, if_neg (h1 cur (List.mem_cons_self _ _))]
    rw [hstep,
      reconcile_foldl_fixed tail cur []
        (fun s hs => h1 s (List.mem_cons_of_mem _ hs)) h2]
    simp

/-- C4: GapReconciler is idempotent: applying `merge_log_lost_and_same_apps`
a second time to a session it produced returns it unchanged, and its output
contains no `Log Lost/Software Bug` segment and no adjacent pair of segments
with equal app name where the first segment's end time equals the second
segment's start time. -/
theorem reconciler_idempotent (w : Workday) :
    rowReconcile (rowReconcile w) = rowReconcile w ∧
    (∀ s ∈ (rowReconcile w).segments, s.app ≠ "Log Lost/Software Bug") ∧
    List.Chain' (fun a b => ¬ mergeablePair a b) (rowReconcile w).segments := by
  obtain ⟨h1, h2⟩ := reconcileSegs_inv w.segments
  refine ⟨?_, h1, h2⟩
  show rowReconcile { w with segments := reconcileSegs w.segments } = _
  rw [rowReconcile, rowReconcile]
  simp only [reconcileSegs_fixed _ h1 h2]

/-- C4 witness: the reconciler output of the concrete log-lost session is a
fixed point of the reconciler, has no filler left, and no mergeable pair. -/
theorem reconciler_idempotent_witness :
    rowReconcile (rowReconcile exLLRow) = rowReconcile exLLRow ∧
    (∀ s ∈ (rowReconcile exLLRow).segments, s.app ≠ "Log Lost/Software Bug") ∧
    List.Chain' (fun a b => ¬ mergeablePair a b)
      (rowReconcile exLLRow).segments :=
  reconciler_idempotent exLLRow

/-- C6 counterexample: on the degenerate session whose single segment is a
leading `Log Lost/Software Bug` filler, `merge_log_lost_and_same_apps`
returns normally with the filler silently removed; no error is raised and
the run does not fail. -/
theorem reconciler_degenerate_cex :
    rowReconcile exDegRow =
      { employeeId := "e_1", segments := [], start_time := 0
        end_time := 60000 } ∧
    reconcileSegs exDegRow.segments = [] := by
  constructor
  · rfl
  · rfl

/-- C6 amended: a `Log Lost/Software Bug` segment with no preceding retained
segment is silently dropped — the scan continues on the remaining segments
exactly as if the filler were absent, discarding its duration and metrics. -/
theorem reconciler_degenerate_silent_drop (seg : Segment)
    (rest : List Segment) (h : seg.app = "Log Lost/Software Bug") :
    reconcileSegs (seg :: rest) = reconcileSegs rest := by
  have hstep : reconcileStepRev [] seg = [] := by
    simp only [reconcileStepRev, if_pos h]
  rw [reconcileSegs, List.foldl_cons, hstep]
  rfl

/-- C6 witness: the amended statement at the concrete degenerate filler. -/
theorem reconciler_degenerate_silent_drop_witness :
    reconcileSegs [exDegSeg, exSegA] = reconcileSegs [exSegA] :=
  reconciler_degenerate_silent_drop exDegSeg [exSegA] rfl

/-- C7 counterexample: an inactive event, and a browser event with unset
site, reach the segmenter with apps `Concentration_Lost` and `Private_Links`
(the whitespace-to-underscore rewrite of `preprocess_data` has fired), which
differ from the exact strings `Concentration Lost` and `Private Links` the
claim asserts. -/
theorem normalizer_exact_label_cex :
    normalizeApp [] (fun _ => none) (fun _ => none) false "SomeApp" none =
      "Concentration_Lost" ∧
    normalizeApp ["Chrome"] (fun _ => none) (fun _ => none) true "Chrome" none =
      "Private_Links" ∧
    ("Concentration_Lost" : String) ≠ "Concentration Lost" ∧
    ("Private_Links" : String) ≠ "Private Links" := by
  refine ⟨rfl, rfl, by decide, by decide⟩

/-- C7 amended: `prepare_initial_data` writes the exact strings
`Concentration Lost` (inactive event) and `Private Links` (browser app with
unset site), but the whitespace-to-underscore rewrite of `preprocess_data`
then turns them into `Concentration_Lost` and `Private_Links`, and these —
not the exact space-carrying strings — are the apps handed to the segmenter
(assuming the mapping tables leave the synthetic labels unmapped and the
label `Concentration Lost` is not itself a known browser). -/
theorem normalizer_labels (browsers : List String)
    (siteMap appMap : String → Option String) (app : String)
    (hb : "Concentration Lost" ∉ browsers)
    (hm : appMap "Concentration Lost" = none) :
    prepareApp browsers false app none = "Concentration Lost" ∧
    normalizeApp browsers siteMap appMap false app none =
      "Concentration_Lost" ∧
    (∀ a, a ∈ browsers → appMap "Private Links" = none →
      prepareApp browsers true a none = "Private Links" ∧
      normalizeApp browsers siteMap appMap true a none = "Private_Links") := by
  have hprep : prepareApp browsers false app none = "Concentration Lost" := by
    simp [prepareApp, hb]
  refine ⟨hprep, ?_, ?_⟩
  · rw [normalizeApp, hprep, applyMappings]
    simp only [hm, Option.getD_none]
    rfl
  · intro a ha hpl
    have hprep2 : prepareApp browsers true a none = "Private Links" := by
      simp [prepareApp, ha]
    refine ⟨hprep2, ?_⟩
    rw [normalizeApp, hprep2, applyMappings]
    simp only [hpl, Option.getD_none]
    rfl

/-- C7 witness: the amended statement at a concrete browser table and empty
mapping tables. -/
theorem normalizer_labels_witness :
    prepareApp ["Chrome"] false "SomeApp" none = "Concentration Lost" ∧
    normalizeApp ["Chrome"] (fun _ => none) (fun _ => none) false "SomeApp"
      none = "Concentration_Lost" ∧
    prepareApp ["Chrome"] true "Chrome" none = "Private Links" ∧
    normalizeApp ["Chrome"] (fun _ => none) (fun _ => none) true "Chrome"
      none = "Private_Links" := by
  obtain ⟨ha, hb, hc⟩ := normalizer_labels ["Chrome"] (fun _ => none)
    (fun _ => none) "SomeApp" (by decide) rfl
  obtain ⟨hd, he⟩ := hc "Chrome" (by decide) rfl
  exact ⟨ha, hb, hd, he⟩

/-- C8 counterexample: two sessions of one employee with identical
`start_time` (the first lasting two hours, the second one hour) are NOT
merged by the merge scan: the gap is negative, failing the
`0 <= actual_gap_hours` test, so both sessions survive unmerged. -/
theorem identical_start_not_merged_cex :
    exRowStartA.start_time = exRowStartB.start_time ∧
    mergeLoop [exRowStartA, exRowStartB] = [exRowStartA, exRowStartB] ∧
    mergeLoop [exRowStartA, exRowStartB] ≠
      [mergePair exRowStartA exRowStartB] := by
  have hgap : hoursQ (exRowStartB.start_time - exRowStartA.end_time) < 0 := by
    norm_num [hoursQ, exRowStartA, exRowStartB]
  have hrun : mergeLoop [exRowStartA, exRowStartB] =
      [exRowStartA, exRowStartB] := by
    show mergeRun exRowStartA [exRowStartB] = _
    rw [mergeRun, if_neg (fun hc => absurd hgap (not_lt.mpr hc.1)), mergeRun]
  refine ⟨rfl, hrun, ?_⟩
  rw [hrun]
  simp

/-- C8 amended: for sessions with identical `start_time` the gap
`next.startTime - current.endTime` is zero or negative; the merge condition
`0 <= gap < 3` hours admits only the zero gap, so such a pair merges exactly
when the current session ends at its own start; with a strictly negative gap
the pair is left unmerged and the scan advances. -/
theorem negative_gap_not_merged (cur next : FeatRow) (rest : List FeatRow) :
    (hoursQ (next.start_time - cur.end_time) < 0 →
      mergeLoop (cur :: next :: rest) = cur :: mergeLoop (next :: rest)) ∧
    (next.start_time = cur.end_time →
      mergeLoop (cur :: next :: rest) =
        mergeLoop (mergePair cur next :: rest)) := by
  constructor
  · intro hneg
    show mergeRun cur (next :: rest) = cur :: mergeRun next rest
    rw [mergeRun]
    rw [if_neg (fun hc => absurd hneg (not_lt.mpr hc.1))]
  · intro heq
    show mergeRun cur (next :: rest) = mergeRun (mergePair cur next) rest
    rw [mergeRun]
    rw [if_pos ?_]
    rw [heq]
    constructor
    · simp [hoursQ]
    · simp [hoursQ]

/-- C8 witness: the amended statement at the concrete identical-start pair
(negative gap: not merged) and at a zero-gap pair (merged). -/
theorem negative_gap_not_merged_witness :
    mergeLoop [exRowStartA, exRowStartB] =
      exRowStartA :: mergeLoop [exRowStartB] :=
  (negative_gap_not_merged exRowStartA exRowStartB []).1
    (by norm_num [hoursQ, exRowStartA, exRowStartB])

/-- C9 counterexample: a session starting 2024-09-13T01:00:00Z falls on a
calendar day inside the claimed inclusive rejection day interval
(2024-09-05 through 2024-09-13), yet `delete_working_days` keeps it: the
filter compares against the midnight timestamp `2024-09-13T00:00:00`, so
most of the interval's last day passes through. -/
theorem rejection_day_range_cex :
    calendarDayOfMs exWSep13.start_time = calendarDayOfMs endDateMs ∧
    calendarDayOfMs startDateMs ≤ calendarDayOfMs exWSep13.start_time ∧
    deleteWorkingDays [exWSep13] = [exWSep13] := by
  refine ⟨by decide, by decide, by decide⟩

/-- C9 amended: `delete_working_days` drops exactly the sessions whose
`start_time` lies in the closed timestamp interval from 2024-09-05T00:00:00
to 2024-09-13T00:00:00 and passes every other session through unchanged;
the last day of the spec's date range is thus rejected only at its midnight
instant, and later times on 2024-09-13 are kept. -/
theorem rejection_range_timestamp (rows : List Workday) (w : Workday) :
    w ∈ deleteWorkingDays rows ↔
      w ∈ rows ∧
        ¬(startDateMs ≤ w.start_time ∧ w.start_time ≤ endDateMs) := by
  simp only [deleteWorkingDays, List.mem_filter, decide_eq_true_eq]

/-- C9 witness: the amended statement at the concrete Sep 13 01:00 session
(kept) and at a midnight-of-Sep-5 session (dropped). -/
theorem rejection_range_timestamp_witness :
    exWSep13 ∈ deleteWorkingDays [exWSep13] :=
  (rejection_range_timestamp [exWSep13] exWSep13).mpr
    ⟨by decide, by decide⟩

/-- C1: the gap dispatch of the segmenter. For a state with a previous event
end `le` and an incoming event `r`, with `gap = r.start_time - le`:
`gap >= maxGap` flushes the current session (ending at `le`) and starts a new
one holding only the event (the boundary `gap = maxGap` included);
`0 < gap <= 20` seconds (the boundary `gap = 20` seconds included) appends a
`Log Lost/Software Bug` filler spanning the gap before the event;
`20` seconds `< gap < maxGap` appends a `Pause` filler spanning the gap
before the event; `gap <= 0` appends the event with no filler. -/
theorem segmenter_gap_cases (eid : String) (maxGap : Int) (st : SegState)
    (r : Event) (le : Int) (hpos : 0 < maxGap) (h : st.lastEnd = some le) :
    (maxGap ≤ r.start_time - le →
      segStep eid maxGap st r =
        { result := st.result ++
            [{ employeeId := mkSessionId eid st.dayCounter
               segments := st.daily
               start_time := st.sessionStart
               end_time := le }]
          daily := [eventSegment r]
          dayCounter := st.dayCounter + 1
          lastEnd := some r.end_time
          sessionStart := r.start_time }) ∧
    (0 < r.start_time - le → r.start_time - le ≤ 20000 →
      r.start_time - le < maxGap →
      (segStep eid maxGap st r).daily =
        st.daily ++ [fillerSegment "Log Lost/Software Bug" le r.start_time,
          eventSegment r] ∧
      (segStep eid maxGap st r).result = st.result ∧
      (segStep eid maxGap st r).lastEnd = some r.end_time ∧
      (segStep eid maxGap st r).dayCounter = st.dayCounter) ∧
    (20000 < r.start_time - le → r.start_time - le < maxGap →
      (segStep eid maxGap st r).daily =
        st.daily ++ [fillerSegment "Pause" le r.start_time, eventSegment r] ∧
      (segStep eid maxGap st r).result = st.result ∧
      (segStep eid maxGap st r).lastEnd = some r.end_time ∧
      (segStep eid maxGap st r).dayCounter = st.dayCounter) ∧
    (r.start_time - le ≤ 0 →
      (segStep eid maxGap st r).daily = st.daily ++ [eventSegment r] ∧
      (segStep eid maxGap st r).result = st.result ∧
      (segStep eid maxGap st r).lastEnd = some r.end_time ∧
      (segStep eid maxGap st r).dayCounter = st.dayCounter) := by
  refine ⟨fun hge => ?_, fun h1 h2 h3 => ?_, fun h1 h2 => ?_, fun h1 => ?_⟩
  · simp only [segStep, h, if_pos hge]
  · have hstep : segStep eid maxGap st r =
        { st with
          daily := st.daily ++
            [fillerSegment "Log Lost/Software Bug" le r.start_time] ++
            [eventSegment r]
          lastEnd := some r.end_time } := by
      simp only [segStep, h, if_neg (not_le.mpr h3)]
      rw [if_pos (show 0 < r.start_time - le ∧ r.start_time - le ≤ 20000 from
        ⟨h1, h2⟩)]
    rw [hstep]
    simp
  · have hstep : segStep eid maxGap st r =
        { st with
          daily := st.daily ++ [fillerSegment "Pause" le r.start_time] ++
            [eventSegment r]
          lastEnd := some r.end_time } := by
      simp only [segStep, h, if_neg (not_le.mpr h2)]
      rw [if_neg (show ¬(0 < r.start_time - le ∧ r.start_time - le ≤ 20000)
          by omega),
        if_pos (show 20000 < r.start_time - le ∧ r.start_time - le < maxGap
          from ⟨h1, h2⟩)]
    rw [hstep]
    simp
  · have hstep : segStep eid maxGap st r =
        { st with
          daily := st.daily ++ [] ++ [eventSegment r]
          lastEnd := some r.end_time } := by
      simp only [segStep, h, if_neg (by omega : ¬ maxGap ≤ r.start_time - le),
        if_neg (by omega : ¬(0 < r.start_time - le ∧
          r.start_time - le ≤ 20000)),
        if_neg (by omega : ¬(20000 < r.start_time - le ∧
          r.start_time - le < maxGap))]
    rw [hstep]
    simp

/-- C1 witness: at the log-lost boundary (gap exactly 20 seconds) with the
pipeline running state, the step appends a `Log Lost/Software Bug` filler
spanning the gap before the event segment. -/
theorem segmenter_gap_cases_witness :
    (segStep "emp" 7200000 exSegState exEvB).daily =
      exSegState.daily ++
        [fillerSegment "Log Lost/Software Bug" 600000 exEvB.start_time,
          eventSegment exEvB] ∧
    (segStep "emp" 7200000 exSegState exEvB).result = exSegState.result ∧
    (segStep "emp" 7200000 exSegState exEvB).lastEnd =
      some exEvB.end_time ∧
    (segStep "emp" 7200000 exSegState exEvB).dayCounter =
      exSegState.dayCounter :=
  (segmenter_gap_cases "emp" 7200000 exSegState exEvB 600000 (by decide)
    rfl).2.1 (by decide) (by decide) (by decide)

/-- Prune is idempotent: filtering the already-filtered list changes
nothing. -/
theorem pruneShort_idem (rows : List FeatRow) :
    pruneShort (pruneShort rows) = pruneShort rows := by
  simp only [pruneShort, List.filter_filter, Bool.and_self]

/-- Rows surviving a merge scan over sessions of at least 45 minutes are
themselves at least 45 minutes: a merge adds the two stored durations plus a
nonnegative pause, and the scan never drops a row by duration. -/
theorem mergeRun_duration_ge (l : List FeatRow) :
    ∀ cur : FeatRow, 45 ≤ cur.workdayDuration →
      (∀ r ∈ l, 45 ≤ r.workdayDuration) →
      ∀ r ∈ mergeRun cur l, 45 ≤ r.workdayDuration := by
  induction l with
  | nil =>
    intro cur hc _ r hr
    rw [mergeRun, List.mem_singleton] at hr
    rw [hr]
    exact hc
  | cons next rest ih =>
    intro cur hc hl r hr
    rw [mergeRun] at hr
    by_cases hcond : 0 ≤ hoursQ (next.start_time - cur.end_time) ∧
        hoursQ (next.start_time - cur.end_time) < 3
    · rw [if_pos hcond] at hr
      refine ih (mergePair cur next) ?_
        (fun x hx => hl x (List.mem_cons_of_mem _ hx)) r hr
      have hnext : 45 ≤ next.workdayDuration :=
        hl next (List.mem_cons_self _ _)
      have hpause : 0 ≤ hoursQ (next.start_time - cur.end_time) * 60 := by
        have := hcond.1
        positivity
      show 45 ≤ cur.workdayDuration + next.workdayDuration +
        hoursQ (next.start_time - cur.end_time) * 60
      linarith
    · rw [if_neg hcond] at hr
      rcases List.mem_cons.mp hr with rfl | hr
      · exact hc
      · exact ih next (hl next (List.mem_cons_self _ _))
          (fun x hx => hl x (List.mem_cons_of_mem _ hx)) r hr

/-- C2: in the merger, pruning happens strictly before the merge loop: the
stage's output is fully determined by the rows of at least 45 minutes (a
sub-45-minute session is dropped before any merging and can never be
rescued by a neighbor, however close); the pruned set carries exactly the
rows of at least 45 minutes; and the merge loop applies no duration
minimum afterwards — it only ever combines surviving rows, so every row it
returns keeps at least 45 minutes without being re-checked. -/
theorem merger_prunes_before_merge (rows : List FeatRow) :
    processEmp rows = processEmp (pruneShort rows) ∧
    (∀ r ∈ pruneShort rows, 45 ≤ r.workdayDuration) ∧
    (∀ r ∈ rows, r.workdayDuration < 45 → r ∉ pruneShort rows) ∧
    (∀ l : List FeatRow, (∀ r ∈ l, 45 ≤ r.workdayDuration) →
      ∀ r ∈ mergeLoop l, 45 ≤ r.workdayDuration) := by
  refine ⟨?_, ?_, ?_, ?_⟩
  · rw [processEmp, processEmp, pruneShort_idem]
  · intro r hr
    have := (List.mem_filter.mp hr).2
    simpa using this
  · intro r _ hlt hmem
    have := (List.mem_filter.mp hmem).2
    simp only [decide_eq_true_eq] at this
    linarith
  · intro l hl r hr
    cases l with
    | nil => simp [mergeLoop] at hr
    | cons head tail =>
      rw [mergeLoop] at hr
      exact mergeRun_duration_ge tail head (hl head (List.mem_cons_self _ _))
        (fun x hx => hl x (List.mem_cons_of_mem _ hx)) r hr

/-- C2 witness: the concrete 30-minute session is not in the pruned set, and
the merge loop keeps the concrete 60-minute survivor at full duration. -/
theorem merger_prunes_before_merge_witness :
    exRowShort ∉ pruneShort [exRowShort, exRowLong] ∧
    (∀ r ∈ mergeLoop [exRowLong], 45 ≤ r.workdayDuration) :=
  ⟨(merger_prunes_before_merge [exRowShort, exRowLong]).2.2.1 exRowShort
      (List.mem_cons_self _ _) (by norm_num [exRowShort]),
    (merger_prunes_before_merge []).2.2.2 [exRowLong]
      (by intro r hr; rw [List.mem_singleton] at hr; rw [hr]
          norm_num [exRowLong])⟩

/-- C3: when the merge condition `0 <= gapHours < 3` holds for the adjacent
pair at the head of the scan, the scan continues on the merged session (no
advance), and the merged session's duration is the sum of the two stored
durations plus the inserted pause's duration in minutes, its end time is the
absorbed session's end time, and its segment list is the first session's
segments, then a `Pause` filler spanning the gap, then the absorbed
session's segments. -/
theorem merge_step_conservation (cur next : FeatRow) (rest : List FeatRow)
    (h0 : 0 ≤ hoursQ (next.start_time - cur.end_time))
    (h3 : hoursQ (next.start_time - cur.end_time) < 3) :
    mergeLoop (cur :: next :: rest) = mergeLoop (mergePair cur next :: rest) ∧
    (mergePair cur next).workdayDuration =
      cur.workdayDuration + next.workdayDuration +
        minutesQ (next.start_time - cur.end_time) ∧
    (mergePair cur next).end_time = next.end_time ∧
    (mergePair cur next).segments =
      cur.segments ++
        fillerSegment "Pause" cur.end_time next.start_time ::
          next.segments := by
  refine ⟨?_, ?_, rfl, rfl⟩
  · show mergeRun cur (next :: rest) = mergeRun (mergePair cur next) rest
    rw [mergeRun, if_pos ⟨h0, h3⟩]
  · show cur.workdayDuration + next.workdayDuration +
        hoursQ (next.start_time - cur.end_time) * 60 = _
    rw [hoursQ, minutesQ]
    field_simp
    ring

/-- C3 witness: two concrete sessions one hour apart merge into a session of
240 minutes (120 + 60 + the 60-minute pause), ending at the absorbed
session's end, with the pause filler between the segment lists. -/
theorem merge_step_conservation_witness :
    mergeLoop [exRowStartA, exRowGapB] =
      mergeLoop [mergePair exRowStartA exRowGapB] ∧
    (mergePair exRowStartA exRowGapB).workdayDuration =
      exRowStartA.workdayDuration + exRowGapB.workdayDuration +
        minutesQ (exRowGapB.start_time - exRowStartA.end_time) ∧
    (mergePair exRowStartA exRowGapB).end_time = exRowGapB.end_time ∧
    (mergePair exRowStartA exRowGapB).segments =
      exRowStartA.segments ++
        fillerSegment "Pause" exRowStartA.end_time exRowGapB.start_time ::
          exRowGapB.segments :=
  merge_step_conservation exRowStartA exRowGapB []
    (by norm_num [hoursQ, exRowStartA, exRowGapB])
    (by norm_num [hoursQ, exRowStartA, exRowGapB])

/-- Index-wise description of the per-group feature annotation: lengths
agree; each output row copies its input row's identity fields and stores the
recomputed duration; a row with a successor stores the gap to the
successor's start in hours; the last row stores the `-1` sentinel. -/
theorem annotateGroup_spec (ws : List Workday) :
    (annotateGroup ws).length = ws.length ∧
    ∀ i a c, ws[i]? = some a → (annotateGroup ws)[i]? = some c →
      c.workdayDuration = minutesQ (a.end_time - a.start_time) ∧
      c.employeeId = a.employeeId ∧ c.start_time = a.start_time ∧
      c.end_time = a.end_time ∧ c.segments = a.segments ∧
      (∀ b, ws[i + 1]? = some b →
        c.hoursUntilNext = hoursQ (b.start_time - a.end_time)) ∧
      (ws[i + 1]? = none → c.hoursUntilNext = (-1 : ℚ)) := by
  induction ws with
  | nil =>
    refine ⟨rfl, ?_⟩
    intro i a c ha _
    simp at ha
  | cons w tail ih =>
    cases tail with
    | nil =>
      refine ⟨rfl, ?_⟩
      intro i a c ha hc
      cases i with
      | zero =>
        simp only [List.getElem?_cons_zero, Option.some.injEq] at ha
        rw [show annotateGroup [w] =
          [{ employeeId := w.employeeId, segments := w.segments
             start_time := w.start_time, end_time := w.end_time
             hoursUntilNext := -1
             workdayDuration := minutesQ (w.end_time - w.start_time) }]
          from rfl, List.getElem?_cons_zero, Option.some.injEq] at hc
        subst ha
        subst hc
        refine ⟨rfl, rfl, rfl, rfl, rfl, ?_, fun _ => rfl⟩
        intro b hb
        simp at hb
      | succ j =>
        simp at ha
    | cons w2 rest =>
      obtain ⟨ihlen, ihget⟩ := ih
      have hrec : annotateGroup (w :: w2 :: rest) =
          { employeeId := w.employeeId, segments := w.segments
            start_time := w.start_time, end_time := w.end_time
            hoursUntilNext := hoursQ (w2.start_time - w.end_time)
            workdayDuration := minutesQ (w.end_time - w.start_time) } ::
          annotateGroup (w2 :: rest) := rfl
      refine ⟨?_, ?_⟩
      · rw [hrec]
        simp [ihlen]
      · intro i a c ha hc
        cases i with
        | zero =>
          simp only [List.getElem?_cons_zero, Option.some.injEq] at ha
          rw [hrec, List.getElem?_cons_zero, Option.some.injEq] at hc
          subst ha
          subst hc
          refine ⟨rfl, rfl, rfl, rfl, rfl, ?_, ?_⟩
          · intro b hb
            simp only [List.getElem?_cons_succ, List.getElem?_cons_zero,
              Option.some.injEq] at hb
            rw [hb]
          · intro hnone
            simp at hnone
        | succ j =>
          rw [hrec] at hc
          simp only [List.getElem?_cons_succ] at ha hc
          have hall := ihget j a c ha hc
          refine ⟨hall.1, hall.2.1, hall.2.2.1, hall.2.2.2.1,
            hall.2.2.2.2.1, ?_, ?_⟩
          · intro b hb
            refine hall.2.2.2.2.2.1 b ?_
            simpa using hb
          · intro hnone
            refine hall.2.2.2.2.2.2 ?_
            simpa using hnone

/-- C5: after the feature annotator, within each employee's group (rows whose
extracted base employee id equals the group key, sorted by start time) every
row's `workday_duration` is its own span in minutes; every row except the
last stores, in hours, the gap from its end to the next row's start; and the
last row of the group stores the `-1` sentinel. -/
theorem annotator_features (rows : List Workday) (k : String) :
    (annotateGroup (sortedGroup rows k)).length =
      (sortedGroup rows k).length ∧
    ∀ i a c, (sortedGroup rows k)[i]? = some a →
      (annotateGroup (sortedGroup rows k))[i]? = some c →
      c.workdayDuration = minutesQ (a.end_time - a.start_time) ∧
      c.employeeId = a.employeeId ∧ c.start_time = a.start_time ∧
      c.end_time = a.end_time ∧ c.segments = a.segments ∧
      (∀ b, (sortedGroup rows k)[i + 1]? = some b →
        c.hoursUntilNext = hoursQ (b.start_time - a.end_time)) ∧
      ((sortedGroup rows k)[i + 1]? = none → c.hoursUntilNext = (-1 : ℚ)) :=
  annotateGroup_spec (sortedGroup rows k)

/-- C5 witness: in the concrete two-session group, the first annotated row
stores its own 60-minute duration and the two-hour gap to the next session. -/
theorem annotator_features_witness :
    exW1Out.workdayDuration = minutesQ (exW1.end_time - exW1.start_time) ∧
    exW1Out.hoursUntilNext = hoursQ (exW2.start_time - exW1.end_time) :=
  ⟨((annotator_features [exW1, exW2] "e").2 0 exW1 exW1Out rfl rfl).1,
    ((annotator_features [exW1, exW2] "e").2 0 exW1 exW1Out rfl
      rfl).2.2.2.2.2.1 exW2 rfl⟩

/-- The fueled digit builder never empties a non-empty accumulator. -/
theorem natReprAux_ne_nil :
    ∀ (fuel n : ℕ) (acc : List Char), acc ≠ [] →
      natReprAux fuel n acc ≠ [] := by
  intro fuel
  induction fuel with
  | zero => intro n acc h; exact h
  | succ f ih =>
    intro n acc h
    rw [natReprAux]
    by_cases hn : n < 10
    · rw [if_pos hn]; simp
    · rw [if_neg hn]; exact ih (n / 10) _ (by simp)

/-- A decimal representation is never the empty character list. -/
theorem natRepr_ne_nil (n : ℕ) : natRepr n ≠ [] := by
  rw [natRepr, natReprAux]
  by_cases hn : n < 10
  · rw [if_pos hn]; simp
  · rw [if_neg hn]; exact natReprAux_ne_nil n (n / 10) _ (by simp)

/-- Digit characters are digits. -/
theorem natDigitChar_isDigit (k : ℕ) (h : k < 10) :
    (natDigitChar k).isDigit = true := by
  interval_cases k <;> decide

/-- Every character the fueled digit builder emits over a digit accumulator
is a digit. -/
theorem natReprAux_digits :
    ∀ (fuel n : ℕ) (acc : List Char),
      (∀ c ∈ acc, c.isDigit = true) →
      ∀ c ∈ natReprAux fuel n acc, c.isDigit = true := by
  intro fuel
  induction fuel with
  | zero => intro n acc h; exact h
  | succ f ih =>
    intro n acc h c hc
    rw [natReprAux] at hc
    by_cases hn : n < 10
    · rw [if_pos hn] at hc
      rcases List.mem_cons.mp hc with rfl | hc
      · exact natDigitChar_isDigit n hn
      · exact h c hc
    · rw [if_neg hn] at hc
      refine ih (n / 10) _ ?_ c hc
      intro x hx
      rcases List.mem_cons.mp hx with rfl | hx
      · exact natDigitChar_isDigit (n % 10) (Nat.mod_lt _ (by norm_num))
      · exact h x hx

/-- Every character of a decimal representation is a digit. -/
theorem natRepr_digits (n : ℕ) : ∀ c ∈ natRepr n, c.isDigit = true :=
  natReprAux_digits (n + 1) n [] (by simp)

/-- Taking while `p` holds over a block where `p` holds everywhere, stopped
by a failing head, returns exactly the block. -/
theorem takeWhile_all_append (p : Char → Bool) (xs : List Char) (y : Char)
    (ys : List Char) (hx : ∀ x ∈ xs, p x = true) (hy : p y = false) :
    (xs ++ y :: ys).takeWhile p = xs := by
  induction xs with
  | nil => simp [List.takeWhile_cons, hy]
  | cons a as ih =>
    have ha := hx a (List.mem_cons_self _ _)
    simp [List.takeWhile_cons, ha,
      ih (fun x hxm => hx x (List.mem_cons_of_mem _ hxm))]

/-- Dropping while `p` holds over a block where `p` holds everywhere,
stopped by a failing head, leaves the head and the tail. -/
theorem dropWhile_all_append (p : Char → Bool) (xs : List Char) (y : Char)
    (ys : List Char) (hx : ∀ x ∈ xs, p x = true) (hy : p y = false) :
    (xs ++ y :: ys).dropWhile p = y :: ys := by
  induction xs with
  | nil => simp [List.dropWhile_cons, hy]
  | cons a as ih =>
    have ha := hx a (List.mem_cons_self _ _)
    simp [List.dropWhile_cons, ha,
      ih (fun x hxm => hx x (List.mem_cons_of_mem _ hxm))]

/-- The characters of a built session id: the employee id's characters, an
underscore, then the counter's decimal digits. -/
theorem mkSessionId_data (e : String) (n : ℕ) :
    (mkSessionId e n).data = e.data ++ '_' :: natRepr n := by
  rcases e with ⟨ed⟩
  show (ed ++ "_".data) ++ natRepr n = ed ++ '_' :: natRepr n
  rw [List.append_assoc]
  rfl

/-- C10: round-trip of session identifiers: extracting the base employee id
(greedy strip of the final underscore-and-digits suffix, keeping the whole
id when the pattern fails) from the id the segmenter builds for employee
`e` and sequence number `n >= 1` returns exactly `e`, even when `e` itself
ends in an underscore followed by digits; the annotator's and merger's
grouping key therefore recovers exactly the originating employee. -/
theorem session_id_roundtrip (e : String) (n : ℕ) (h : 1 ≤ n) :
    extractBase (mkSessionId e n) = e := by
  have hrev : (mkSessionId e n).data.reverse =
      (natRepr n).reverse ++ '_' :: e.data.reverse := by
    rw [mkSessionId_data]
    simp
  have hdig : ∀ c ∈ (natRepr n).reverse, c.isDigit = true := by
    intro c hc
    exact natRepr_digits n c (List.mem_reverse.mp hc)
  have ht : (mkSessionId e n).data.reverse.takeWhile Char.isDigit =
      (natRepr n).reverse := by
    rw [hrev]
    exact takeWhile_all_append _ _ _ _ hdig (by decide)
  have hw : (mkSessionId e n).data.reverse.dropWhile Char.isDigit =
      '_' :: e.data.reverse := by
    rw [hrev]
    exact dropWhile_all_append _ _ _ _ hdig (by decide)
  have hne : (natRepr n).reverse ≠ [] := by
    intro hnil
    exact natRepr_ne_nil n (by simpa using hnil)
  obtain ⟨c0, d0, hcd⟩ := List.exists_cons_of_ne_nil hne
  rw [extractBase, ht, hw, hcd]
  simp only [if_pos rfl]
  rcases e with ⟨ed⟩
  simp

/-- C10 witness: the id built for employee `emp_7` (which itself ends in an
underscore and a digit) and day 3 strips back to exactly `emp_7`. -/
theorem session_id_roundtrip_witness :
    extractBase (mkSessionId "emp_7" 3) = "emp_7" :=
  session_id_roundtrip "emp_7" 3 (by norm_num)

end Insightful
